import Mathlib

/-!
Verification of the Instashop scraper pipeline (`scraper.py`, `run_scraper.py`)
against its natural-language specification.

The embedding below is shallow: each Python function relevant to the claims is
translated into a Lean definition over explicit data.  Python `float` values
are modelled by exact rationals (`ℚ`), Python `None`/missing values by
`Option`, the pandas column entries fed to `parse_price` by the inductive type
`PyValue`, and filesystem paths returned by the scrape task by `PyPath`.
-/

set_option autoImplicit false

namespace Scrapper

/-! ### Values appearing in a pandas column

`parse_price` receives the entries of the `price` / `old_price` columns.
These are strings produced by the extractor, but defensively the code also
handles non-string entries (`None`, float `NaN`), cf. `scraper.py` line 390. -/

inductive PyValue where
  | str (s : String)
  | pyNone
  | nan
  deriving DecidableEq, Repr

/-! ### `parse_price` (`scraper.py` lines 389-398)

```python
def parse_price(s):
    if not isinstance(s, str):
        return None
    digits = "".join(ch if ch.isdigit() or ch in ".,-" else "" for ch in s)
    if not digits:
        return None
    try:
        return float(digits.replace(",", "."))
    except ValueError:
        return None
```
-/

/-- The character filter of `parse_price`: keep a character iff it is a digit
or one of `.`, `,`, `-` (`ch.isdigit() or ch in ".,-"`). -/
def keepPriceChar (c : Char) : Bool :=
  c.isDigit || c = '.' || c = ',' || c = '-'

/-- `digits = "".join(ch if ch.isdigit() or ch in ".,-" else "" for ch in s)`. -/
def stripNonPrice (s : String) : String :=
  String.mk (s.data.filter keepPriceChar)

/-- `digits.replace(",", ".")`. -/
def normalizeCommas (s : String) : String :=
  String.mk (s.data.map (fun c => if c = ',' then '.' else c))

/-- Numeric value of a digit list read in base 10 (`[] ↦ 0`). -/
def digitsToNat (cs : List Char) : ℕ :=
  cs.foldl (fun a c => a * 10 + (c.toNat - 48)) 0

/-- Exact decimal representation of a successfully parsed price:
sign, integer digits, fractional digits, number of fractional digits. -/
structure DecimalRep where
  neg : Bool
  intPart : ℕ
  fracPart : ℕ
  fracLen : ℕ
  deriving DecidableEq, Repr

/-- The grammar accepted by Python's `float(str)` restricted to the alphabet
that can reach it here (digits, `.`, `-`; every `,` has already been replaced
by `.`): an optional leading `-`, then a non-empty run of digits and at most
one `.`, containing at least one digit.  `float("5.")`, `float(".5")`
succeed; `float("-")`, `float("1.2.3")`, `float("5-5")` raise `ValueError`,
modelled as `none`. -/
def pyFloatRep (cs : List Char) : Option DecimalRep :=
  let rest := match cs with
    | '-' :: t => t
    | _ => cs
  let neg : Bool := match cs with
    | '-' :: _ => true
    | _ => false
  if rest = [] then none
  else if rest.all (fun c => c.isDigit || c = '.') && (rest.count '.' ≤ 1)
          && rest.any Char.isDigit then
    let intPart := rest.takeWhile (fun c => c ≠ '.')
    let fracPart := (rest.dropWhile (fun c => c ≠ '.')).drop 1
    some ⟨neg, digitsToNat intPart, digitsToNat fracPart, fracPart.length⟩
  else none

/-- The rational value a `DecimalRep` denotes. -/
def DecimalRep.val (r : DecimalRep) : ℚ :=
  (if r.neg then -1 else 1)
    * ((r.intPart : ℚ) + (r.fracPart : ℚ) / ((10 : ℚ) ^ r.fracLen))

/-- `parse_price` on a string argument: strip to the price alphabet; an empty
remainder yields `none`; otherwise normalize `,` to `.` and parse as a
decimal (`float(...)`), `none` on failure. -/
def parsePriceStr (s : String) : Option ℚ :=
  let digits := stripNonPrice s
  if digits = "" then none
  else Option.map DecimalRep.val (pyFloatRep (normalizeCommas digits).data)

/-- `parse_price` including the non-string guard
(`if not isinstance(s, str): return None`). -/
def parse_price (v : PyValue) : Option ℚ :=
  match v with
  | .str s => parsePriceStr s
  | _ => none

/-! ### Discount computation (`scraper.py` lines 400-411)

```python
full["discount_percent"] = (
    (full["old_price_numeric"] - full["price_numeric"])
    / full["old_price_numeric"] * 100
).where(
    (full["old_price_numeric"].notna())
    & (full["price_numeric"].notna())
    & (full["old_price_numeric"] > 0),
    None,
)
```
The `.where(cond, None)` keeps the computed value exactly where both numeric
columns are present and the old price is positive, and yields a missing value
("no value") everywhere else. -/

def discount_percent (priceN oldN : Option ℚ) : Option ℚ :=
  match priceN, oldN with
  | some p, some o => if 0 < o then some ((o - p) / o * 100) else none
  | _, _ => none

/-! ### Product records and the combiner (`scraper.py` lines 195-255, 361-411)

A `ProductRecord` is one row of a per-task artifact: the fields built by
`extract_products` (the DOM extraction plus the context columns
`category_url`, `location_used`, `timestamp`). -/

structure ProductRecord where
  seen_order : ℕ
  name : String
  quantity : String
  price : String
  old_price : String
  image_url : String
  out_of_stock : Bool
  sku : String
  category_url : String
  location_used : String
  timestamp : String
  deriving DecidableEq, Repr

/-- The composite dedup key of `full.drop_duplicates(subset=["category_url",
"location_used", "name", "quantity", "price"], keep="first")`. -/
def dedupKey (r : ProductRecord) : String × String × String × String × String :=
  (r.category_url, r.location_used, r.name, r.quantity, r.price)

/-- Worker of `dropDuplicates`: walk the concatenated rows in order, keeping a
row iff its key has not been seen yet (pandas `drop_duplicates` with
`keep="first"`). -/
def dropDupAux (seen : List (String × String × String × String × String)) :
    List ProductRecord → List ProductRecord
  | [] => []
  | r :: rs =>
    if dedupKey r ∈ seen then dropDupAux seen rs
    else r :: dropDupAux (dedupKey r :: seen) rs

/-- `full.drop_duplicates(subset=[...], keep="first")`. -/
def dropDuplicates (l : List ProductRecord) : List ProductRecord :=
  dropDupAux [] l

/-- Specification-side rendering of "keeps the first occurrence and discards
later ones": keep the head, delete every later row sharing its key, recurse. -/
def keepFirstSpec : List ProductRecord → List ProductRecord
  | [] => []
  | r :: rs => r :: keepFirstSpec (rs.filter (fun x => dedupKey x ≠ dedupKey r))
  termination_by l => l.length
  decreasing_by
    simp only [List.length_cons]
    exact Nat.lt_succ_of_le (List.length_filter_le _ _)

/-- One row of the combined dataset: the record together with its derived
`price_numeric`, `old_price_numeric` and `discount_percent` columns. -/
structure CombinedRow where
  row : ProductRecord
  price_numeric : Option ℚ
  old_price_numeric : Option ℚ
  discount : Option ℚ
  deriving DecidableEq, Repr

/-- `combine_outputs` on the successfully read artifacts (each a list of
rows): concatenate, dedup on the composite key keeping the first occurrence,
then derive the numeric and discount columns row-wise. -/
def combine_outputs (artifacts : List (List ProductRecord)) : List CombinedRow :=
  (dropDuplicates artifacts.flatten).map (fun r =>
    let p := parse_price (PyValue.str r.price)
    let o := parse_price (PyValue.str r.old_price)
    { row := r, price_numeric := p, old_price_numeric := o,
      discount := discount_percent p o })

/-! ### Task cross product (`run_scraper.py` line 49)

`combos = [(cat, loc) for cat in categories for loc in locations]` —
categories in the outer loop, locations in the inner loop. -/

def combos (categories locations : List String) : List (String × String) :=
  categories.flatMap (fun cat => locations.map (fun loc => (cat, loc)))

/-! ### Scroll stabilizer (`scraper.py` lines 160-192)

```python
last_count = 0
stable_rounds = 0
for cycle in range(1, config.max_scroll_cycles + 1):
    ...scroll, wait...
    count = ...number of rendered product cards...
    if count == last_count:
        stable_rounds += 1
    else:
        stable_rounds = 0
        last_count = count
    if stable_rounds == 1:
        ...small upward scroll...
    if stable_rounds >= config.rounds_stable:
        break
```
The page is modelled by the sequence `counts : ℕ → ℕ` of card counts the loop
would observe on each cycle (1-based).  The execution is recorded as a trace
of per-cycle logs. -/

structure CycleLog where
  count : ℕ
  lastCount : ℕ
  stableRounds : ℕ
  upscroll : Bool
  deriving DecidableEq, Repr

/-- The per-cycle state update of `human_like_scroll`: observe `count`,
increment `stable_rounds` if it equals `last_count`, otherwise reset
`stable_rounds` to 0 and set `last_count` to the new count; the small upward
scroll fires exactly when `stable_rounds == 1` after the update. -/
def scrollStep (count lastCount stableRounds : ℕ) : CycleLog :=
  let stable' := if count = lastCount then stableRounds + 1 else 0
  let last' := if count = lastCount then lastCount else count
  ⟨count, last', stable', stable' == 1⟩

/-- The loop body of `human_like_scroll`, with the remaining iteration budget
as fuel (the `for` range bounds it), recording each executed cycle. -/
def scrollGo (counts : ℕ → ℕ) (roundsStable : ℕ) :
    ℕ → ℕ → ℕ → ℕ → List CycleLog
  | 0, _, _, _ => []
  | fuel + 1, cycle, lastCount, stableRounds =>
    let c := counts cycle
    let stable' := if c = lastCount then stableRounds + 1 else 0
    let last' := if c = lastCount then lastCount else c
    let log : CycleLog := ⟨c, last', stable', stable' == 1⟩
    if roundsStable ≤ stable' then [log]
    else log :: scrollGo counts roundsStable fuel (cycle + 1) last' stable'

/-- `human_like_scroll` as a trace: cycles run from 1, `last_count` and
`stable_rounds` start at 0, the `for` range caps iterations at
`max_scroll_cycles`. -/
def human_like_scroll (counts : ℕ → ℕ) (maxScrollCycles roundsStable : ℕ) :
    List CycleLog :=
  scrollGo counts roundsStable maxScrollCycles 1 0 0

/-! ### Artifact filename sanitization (`scraper.py` lines 341-346)

```python
safe_vendor = (
    "".join(ch if ch.isalnum() or ch in " _-" else "_" for ch in vendor)
    .strip()
    .replace(" ", "_")
)
```
The same expression is applied to the location string.  `str.isalnum` is
modelled by `Char.isAlphanum`; the model is faithful for ASCII input
(Python's `isalnum` additionally accepts non-ASCII alphanumerics). -/

/-- `ch if ch.isalnum() or ch in " _-" else "_"`. -/
def sanitizeChar (c : Char) : Char :=
  if c.isAlphanum || c = ' ' || c = '_' || c = '-' then c else '_'

/-- Python `str.strip()`: remove leading and trailing whitespace. -/
def pyStrip (cs : List Char) : List Char :=
  ((cs.dropWhile Char.isWhitespace).reverse.dropWhile Char.isWhitespace).reverse

/-- The sanitization applied to the vendor name and the location string:
map disallowed characters to `_`, strip, replace spaces with `_`. -/
def sanitize (s : String) : String :=
  String.mk ((pyStrip (s.data.map sanitizeChar)).map
    (fun c => if c = ' ' then '_' else c))

/-- The sanitization as claim C8 words it (no strip step): map every
character outside `[A-Za-z0-9 _-]` to `_`, then replace spaces with `_`. -/
def sanitizeC8Spec (s : String) : String :=
  String.mk ((s.data.map sanitizeChar).map (fun c => if c = ' ' then '_' else c))

/-- The explicit character class `[A-Za-z0-9 _-]` of the spec. -/
def inC8Class (c : Char) : Bool :=
  ('A' ≤ c && c ≤ 'Z') || ('a' ≤ c && c ≤ 'z') || ('0' ≤ c && c ≤ '9')
    || c = ' ' || c = '_' || c = '-'

/-- The sanitization as amended: map every character outside `[A-Za-z0-9 _-]`
to `_`, strip leading/trailing whitespace, then replace spaces with `_`. -/
def sanitizeC8Amended (s : String) : String :=
  String.mk ((pyStrip (s.data.map (fun c => if inC8Class c then c else '_'))).map
    (fun c => if c = ' ' then '_' else c))

/-! ### The scrape task's return value and the orchestrator's collection loop
(`scraper.py` lines 326-354, `run_scraper.py` lines 54-77)

`scrape_one_category_location` returns `(category_url, location, Path())` when
the extraction is empty — `Path()` is the relative path `.` — and otherwise
writes the artifact and returns its path.  A `pathlib.Path` is modelled by
`PyPath`; `dummy` is `Path()`. -/

inductive PyPath where
  | dummy
  | real (s : String)
  deriving DecidableEq, Repr

/-- `bool(out_path)`: `pathlib.Path` defines no `__bool__`, so every path
object (including `Path()`) is truthy. -/
def pathTruthy : PyPath → Bool := fun _ => true

/-- The artifact-related outcome of `scrape_one_category_location` once the
extraction produced `records`: the returned path and the list of files
written (lines 334-336 return `Path()` and write nothing when the extraction
is empty; lines 338-354 write exactly one file otherwise). -/
def scrapeOneArtifact (records : List ProductRecord) (outPath : String) :
    PyPath × List String :=
  if records.isEmpty then (PyPath.dummy, [])
  else (PyPath.real outPath, [outPath])

/-- `⚠️ No data saved for combo: {cat} @ {loc}` (`run_scraper.py` line 75). -/
def warnMsg (cat loc : String) : String :=
  "⚠️ No data saved for combo: " ++ cat ++ " @ " ++ loc

/-- `❌ Error in combo {cat} @ {loc}: {e}` (`run_scraper.py` line 77). -/
def errMsg (cat loc e : String) : String :=
  "❌ Error in combo " ++ cat ++ " @ " ++ loc ++ ": " ++ e

/-- One completed future: the task identity from `future_to_combo`, and
either the task's returned triple or the exception message it raised. -/
abbrev TaskCompletion : Type :=
  (String × String) × Except String (String × String × PyPath)

/-- The body of the orchestrator's result-collection loop
(`run_scraper.py` lines 69-77): on a normal result, append the path iff it is
truthy and exists on the filesystem `fs`, else log the no-data warning; on an
exception, log the error with the task identity and continue. -/
def collectStep (fs : PyPath → Bool) (acc : List PyPath × List String)
    (item : TaskCompletion) : List PyPath × List String :=
  match item with
  | ((cat, loc), Except.ok (_c, _l, p)) =>
    if pathTruthy p && fs p then (acc.1 ++ [p], acc.2)
    else (acc.1, acc.2 ++ [warnMsg cat loc])
  | ((cat, loc), Except.error e) => (acc.1, acc.2 ++ [errMsg cat loc e])

/-- The whole collection loop over the completed tasks (in completion order),
returning the collected `parquet_files` and the emitted log lines. -/
def collectResults (fs : PyPath → Bool) (items : List TaskCompletion) :
    List PyPath × List String :=
  items.foldl (collectStep fs) ([], [])

/-- Specification-side: the path one completed task contributes (if any). -/
def pathOf (fs : PyPath → Bool) (item : TaskCompletion) : Option PyPath :=
  match item with
  | (_, Except.ok (_c, _l, p)) =>
    if pathTruthy p && fs p then some p else none
  | (_, Except.error _) => none

/-- Specification-side: the log line one completed task emits (if any). -/
def logOf (fs : PyPath → Bool) (item : TaskCompletion) : Option String :=
  match item with
  | ((cat, loc), Except.ok (_c, _l, p)) =>
    if pathTruthy p && fs p then none else some (warnMsg cat loc)
  | ((cat, loc), Except.error e) => some (errMsg cat loc e)

/-! ## Theorems -/

/-- Unfolding of `parsePriceStr` when the stripped string is non-empty. -/
theorem parsePriceStr_of_ne (s : String) (h : stripNonPrice s ≠ "") :
    parsePriceStr s
      = Option.map DecimalRep.val (pyFloatRep (normalizeCommas (stripNonPrice s)).data) := by
  rw [parsePriceStr]
  simp [h]

/-- Every row of the combined dataset carries the derived columns computed
from its own raw `price` / `old_price` strings. -/
theorem mem_combine_outputs {artifacts : List (List ProductRecord)}
    {cr : CombinedRow} (h : cr ∈ combine_outputs artifacts) :
    cr.price_numeric = parse_price (PyValue.str cr.row.price)
    ∧ cr.old_price_numeric = parse_price (PyValue.str cr.row.old_price)
    ∧ cr.discount = discount_percent cr.price_numeric cr.old_price_numeric := by
  unfold combine_outputs at h
  obtain ⟨r, _hr, rfl⟩ := List.mem_map.mp h
  exact ⟨rfl, rfl, rfl⟩

/-- C3: `parse_price` on strings is total: every string maps to either a
(finite) rational or "no value"; an input whose strip leaves nothing yields
"no value"; otherwise the comma-normalized remainder is parsed as a decimal;
`"EGP 45.50"` parses to `45.50`, `"—"` to "no value", `"120,00"` to `120.00`. -/
theorem parse_price_total :
    (∀ s : String, parsePriceStr s = none ∨ ∃ q : ℚ, parsePriceStr s = some q)
    ∧ (∀ s : String, stripNonPrice s = "" → parsePriceStr s = none)
    ∧ (∀ s : String, stripNonPrice s ≠ "" →
        parsePriceStr s
          = Option.map DecimalRep.val (pyFloatRep (normalizeCommas (stripNonPrice s)).data))
    ∧ parsePriceStr "EGP 45.50" = some (91 / 2)
    ∧ parsePriceStr "—" = none
    ∧ parsePriceStr "120,00" = some 120 := by
  refine ⟨?_, ?_, ?_, ?_, ?_, ?_⟩
  · intro s
    cases h : parsePriceStr s with
    | none => exact Or.inl rfl
    | some q => exact Or.inr ⟨q, rfl⟩
  · intro s h
    rw [parsePriceStr]
    simp [h]
  · exact parsePriceStr_of_ne
  · have h : pyFloatRep (normalizeCommas (stripNonPrice "EGP 45.50")).data
        = some ⟨false, 45, 50, 2⟩ := by decide
    rw [parsePriceStr_of_ne _ (by decide), h]
    norm_num [DecimalRep.val]
  · decide
  · have h : pyFloatRep (normalizeCommas (stripNonPrice "120,00")).data
        = some ⟨false, 120, 0, 2⟩ := by decide
    rw [parsePriceStr_of_ne _ (by decide), h]
    norm_num [DecimalRep.val]

/-- Witness for C3 at concrete inputs. -/
theorem parse_price_total_witness :
    parsePriceStr "—" = none ∧ parsePriceStr "EGP 45.50" = some (91 / 2) :=
  ⟨parse_price_total.2.1 "—" (by decide), parse_price_total.2.2.2.1⟩

/-- C10: `parse_price` returns "no value" on every non-string input
(`None`, float `NaN`), so it is total over a column with missing entries. -/
theorem parse_price_nonstring :
    ∀ v : PyValue, (∀ s : String, v ≠ PyValue.str s) → parse_price v = none := by
  intro v h
  cases v with
  | str s => exact absurd rfl (h s)
  | pyNone => rfl
  | nan => rfl

/-- Witness for C10: the two concrete non-string values. -/
theorem parse_price_nonstring_witness :
    parse_price PyValue.pyNone = none ∧ parse_price PyValue.nan = none :=
  ⟨parse_price_nonstring PyValue.pyNone (fun _ h => PyValue.noConfusion h),
   parse_price_nonstring PyValue.nan (fun _ h => PyValue.noConfusion h)⟩

/-- C2: in every combined row the discount is
`(old − price) / old × 100` exactly when both numeric columns parsed and the
old price is positive, and "no value" in every other case (old price zero or
absent included); `old=100, price=75` gives exactly `25`. -/
theorem discount_percent_correct :
    (∀ (artifacts : List (List ProductRecord)) (cr : CombinedRow),
        cr ∈ combine_outputs artifacts →
        cr.discount = discount_percent cr.price_numeric cr.old_price_numeric)
    ∧ (∀ p o : ℚ, 0 < o →
        discount_percent (some p) (some o) = some ((o - p) / o * 100))
    ∧ (∀ p o : Option ℚ,
        (¬ ∃ pv ov : ℚ, p = some pv ∧ o = some ov ∧ 0 < ov) →
        discount_percent p o = none)
    ∧ discount_percent (some 75) (some 100) = some 25
    ∧ (∀ p : Option ℚ, discount_percent p none = none)
    ∧ (∀ p : ℚ, discount_percent (some p) (some 0) = none)
    ∧ (∀ (artifacts : List (List ProductRecord)) (cr : CombinedRow),
        cr ∈ combine_outputs artifacts → cr.row.old_price = "" →
        cr.discount = none) := by
  refine ⟨?_, ?_, ?_, ?_, ?_, ?_, ?_⟩
  · intro artifacts cr h
    exact (mem_combine_outputs h).2.2
  · intro p o ho
    rw [discount_percent]
    simp [ho]
  · intro p o h
    cases p with
    | none => rfl
    | some pv =>
      cases o with
      | none => rfl
      | some ov =>
        rw [discount_percent]
        have : ¬ 0 < ov := fun hlt => h ⟨pv, ov, rfl, rfl, hlt⟩
        simp [this]
  · rw [discount_percent]
    norm_num
  · intro p
    cases p <;> rfl
  · intro p
    rw [discount_percent]
    norm_num
  · intro artifacts cr h hold
    obtain ⟨_hp, ho, hd⟩ := mem_combine_outputs h
    rw [hd, ho, hold]
    cases cr.price_numeric <;> rfl

/-- Witness for C2 at `old = 100`, `price = 75`. -/
theorem discount_percent_correct_witness :
    discount_percent (some 75) (some 100) = some ((100 - 75) / 100 * 100) :=
  discount_percent_correct.2.1 75 100 (by norm_num)

/-- `combos` is the list cross product (categories outer, locations inner). -/
theorem combos_eq_product (categories locations : List String) :
    combos categories locations = categories ×ˢ locations := rfl

/-- Positional characterization of the cross-product order: entry
`i * |locations| + j` of the combo list is the pair of the `i`-th category
with the `j`-th location. -/
theorem combos_getElem? :
    ∀ (categories locations : List String) (i j : ℕ)
      (hi : i < categories.length) (hj : j < locations.length),
      (combos categories locations)[i * locations.length + j]?
        = some (categories.get ⟨i, hi⟩, locations.get ⟨j, hj⟩) := by
  intro categories
  induction categories with
  | nil => intro locations i j hi _; exact absurd hi (Nat.not_lt_zero i)
  | cons c cs ih =>
    intro locations i j hi hj
    have hsplit : combos (c :: cs) locations
        = locations.map (fun loc => (c, loc)) ++ combos cs locations := rfl
    cases i with
    | zero =>
      rw [hsplit, Nat.zero_mul, Nat.zero_add,
        List.getElem?_append_left (by simpa using hj), List.getElem?_map,
        List.getElem?_eq_getElem hj]
      rfl
    | succ i =>
      have hidx : (i + 1) * locations.length + j
          = locations.length + (i * locations.length + j) := by ring
      have hlen : (locations.map (fun loc => (c, loc))).length
          ≤ (i + 1) * locations.length + j := by
        rw [List.length_map, hidx]
        exact Nat.le_add_right _ _
      rw [hsplit, List.getElem?_append_right hlen, List.length_map, hidx,
        Nat.add_sub_cancel_left]
      exact ih locations i j (Nat.lt_of_succ_lt_succ hi) hj

/-- C5: for non-empty inputs the orchestrator builds exactly `m × n` tasks,
one per (category, location) pair in categories-outer/locations-inner order,
all distinct when the input lists are duplicate-free. -/
theorem combos_cross_product :
    ∀ (categories locations : List String),
      categories ≠ [] → locations ≠ [] →
      (combos categories locations).length
          = categories.length * locations.length
      ∧ (categories.Nodup → locations.Nodup →
          (combos categories locations).Nodup)
      ∧ (∀ cl : String × String,
          cl ∈ combos categories locations ↔ cl.1 ∈ categories ∧ cl.2 ∈ locations)
      ∧ (∀ (i j : ℕ) (hi : i < categories.length) (hj : j < locations.length),
          (combos categories locations)[i * locations.length + j]?
            = some (categories.get ⟨i, hi⟩, locations.get ⟨j, hj⟩)) := by
  intro categories locations _ _
  refine ⟨?_, ?_, ?_, combos_getElem? categories locations⟩
  · rw [combos_eq_product]
    exact List.length_product categories locations
  · intro h1 h2
    rw [combos_eq_product]
    exact h1.product h2
  · intro cl
    rw [combos_eq_product]
    exact List.mem_product

/-- Witness for C5 on two categories and one location. -/
theorem combos_cross_product_witness :
    (combos ["a", "b"] ["x"]).length = ["a", "b"].length * ["x"].length :=
  (combos_cross_product ["a", "b"] ["x"] (by decide) (by decide)).1

/-- The scroll loop executes at most `fuel` cycles. -/
theorem scrollGo_length_le (counts : ℕ → ℕ) (roundsStable : ℕ) :
    ∀ (fuel cycle lastCount stableRounds : ℕ),
      (scrollGo counts roundsStable fuel cycle lastCount stableRounds).length
        ≤ fuel := by
  intro fuel
  induction fuel with
  | zero => intro _ _ _; simp [scrollGo]
  | succ f ih =>
    intro cycle lastCount stableRounds
    rw [scrollGo]
    split <;> split <;>
      first
        | (simp only [List.length_cons]; exact Nat.succ_le_succ (ih _ _ _))
        | simp

/-- C6: the scroll stabilizer performs at most `max_scroll_cycles`
scroll-and-count cycles, for every sequence of observed card counts
(including one that never stabilizes). -/
theorem scroll_terminates :
    ∀ (counts : ℕ → ℕ) (maxScrollCycles roundsStable : ℕ),
      (human_like_scroll counts maxScrollCycles roundsStable).length
        ≤ maxScrollCycles :=
  fun counts maxScrollCycles roundsStable =>
    scrollGo_length_le counts roundsStable maxScrollCycles 1 0 0

/-- On every character the code's keep-test (`ch.isalnum() or ch in " _-"`)
agrees with the spec's class `[A-Za-z0-9 _-]` (for the ASCII alphanumerics the
model covers). -/
theorem sanitizeChar_eq_class (c : Char) :
    sanitizeChar c = if inC8Class c then c else '_' := rfl

/-- Counterexample to C8 as stated: on `" a"` the code's sanitization (which
strips leading/trailing whitespace between the character mapping and the
space replacement) yields `"a"`, while the claimed map-then-replace formula
yields `"_a"`. -/
theorem sanitize_counterexample :
    sanitize " a" = "a" ∧ sanitizeC8Spec " a" = "_a"
      ∧ sanitize " a" ≠ sanitizeC8Spec " a" := by
  refine ⟨by decide, by decide, by decide⟩

/-- C8 amended: the sanitization maps every character outside `[A-Za-z0-9 _-]`
to `_`, strips leading/trailing whitespace, then replaces spaces with `_`
(stated for ASCII strings, over which the `str.isalnum` model is faithful);
`"Sarai Market / Al-Ekbal!"` sanitizes to `"Sarai_Market___Al-Ekbal_"`. -/
theorem sanitize_amended :
    (∀ s : String, (∀ c ∈ s.data, c.toNat < 128) →
        sanitize s = sanitizeC8Amended s)
    ∧ sanitize "Sarai Market / Al-Ekbal!" = "Sarai_Market___Al-Ekbal_" := by
  constructor
  · intro s _h
    rw [sanitize, sanitizeC8Amended]
    have : s.data.map sanitizeChar
        = s.data.map (fun c => if inC8Class c then c else '_') :=
      List.map_congr_left (fun c _ => sanitizeChar_eq_class c)
    rw [this]
  · decide

/-- Witness for the amended C8 on a concrete ASCII string. -/
theorem sanitize_amended_witness :
    sanitize " Sarai Market / Al-Ekbal! " = sanitizeC8Amended " Sarai Market / Al-Ekbal! " :=
  sanitize_amended.1 " Sarai Market / Al-Ekbal! " (by decide)

/-- Rows surviving `keepFirstSpec` come from the input list. -/
theorem mem_of_mem_keepFirstSpec (l : List ProductRecord) :
    ∀ x, x ∈ keepFirstSpec l → x ∈ l := by
  induction l using keepFirstSpec.induct with
  | case1 =>
    intro x h
    rw [keepFirstSpec] at h
    exact h
  | case2 r rs ih =>
    intro x h
    rw [keepFirstSpec] at h
    rcases List.mem_cons.mp h with h1 | h2
    · exact h1 ▸ List.mem_cons_self r rs
    · exact List.mem_cons_of_mem r (List.mem_of_mem_filter (ih x h2))

/-- `keepFirstSpec` preserves the input order (it is a sublist). -/
theorem keepFirstSpec_sublist (l : List ProductRecord) :
    (keepFirstSpec l).Sublist l := by
  induction l using keepFirstSpec.induct with
  | case1 =>
    rw [keepFirstSpec]
  | case2 r rs ih =>
    rw [keepFirstSpec]
    exact List.Sublist.cons₂ r (ih.trans (List.filter_sublist rs))

/-- After `keepFirstSpec` all composite keys are distinct. -/
theorem keepFirstSpec_keys_nodup (l : List ProductRecord) :
    ((keepFirstSpec l).map dedupKey).Nodup := by
  induction l using keepFirstSpec.induct with
  | case1 =>
    rw [keepFirstSpec]
    exact List.nodup_nil
  | case2 r rs ih =>
    rw [keepFirstSpec]
    simp only [List.map_cons, List.nodup_cons]
    refine ⟨fun hmem => ?_, ih⟩
    obtain ⟨x, hx, hkey⟩ := List.mem_map.mp hmem
    have hxf := mem_of_mem_keepFirstSpec _ x hx
    have hne := (List.mem_filter.mp hxf).2
    simp only [decide_eq_true_eq] at hne
    exact hne hkey

/-- The seen-set worker agrees with the first-occurrence specification on the
rows whose key is not yet seen. -/
theorem dropDupAux_eq (l : List ProductRecord) :
    ∀ seen, dropDupAux seen l
      = keepFirstSpec (l.filter (fun r => decide (dedupKey r ∉ seen))) := by
  induction l with
  | nil =>
    intro seen
    rw [List.filter_nil, dropDupAux, keepFirstSpec]
  | cons r rs ih =>
    intro seen
    by_cases h : dedupKey r ∈ seen
    · rw [dropDupAux, if_pos h, List.filter_cons, if_neg (by simp [h])]
      exact ih seen
    · rw [dropDupAux, if_neg h, List.filter_cons, if_pos (by simp [h])]
      rw [keepFirstSpec, ih (dedupKey r :: seen), List.filter_filter]
      congr 1
      congr 1
      apply List.filter_congr
      intro x _
      by_cases h1 : dedupKey x = dedupKey r <;>
        by_cases h2 : dedupKey x ∈ seen <;>
          simp [h1, h2, List.mem_cons]

/-- `drop_duplicates(keep="first")` keeps exactly the first occurrence of
each composite key, in order. -/
theorem dropDuplicates_eq_keepFirstSpec (l : List ProductRecord) :
    dropDuplicates l = keepFirstSpec l := by
  rw [dropDuplicates, dropDupAux_eq]
  congr 1
  apply List.filter_eq_self.mpr
  intro a _
  simp

/-- Filtering out a key absent from a list is the identity on its dedup. -/
theorem keepFirstSpec_filter_ne (r : ProductRecord) (l : List ProductRecord)
    (hall : ∀ x ∈ l, dedupKey x ≠ dedupKey r) :
    (keepFirstSpec l).filter (fun x => decide (dedupKey x ≠ dedupKey r))
      = keepFirstSpec l :=
  List.filter_eq_self.mpr (fun a ha => by
    simp [hall a (mem_of_mem_keepFirstSpec l a ha)])

/-- The first-occurrence dedup is idempotent. -/
theorem keepFirstSpec_idem (l : List ProductRecord) :
    keepFirstSpec (keepFirstSpec l) = keepFirstSpec l := by
  induction l using keepFirstSpec.induct with
  | case1 =>
    rw [keepFirstSpec, keepFirstSpec]
  | case2 r rs ih =>
    rw [keepFirstSpec, keepFirstSpec]
    rw [keepFirstSpec_filter_ne r _ (fun x hx => by
      have := (List.mem_filter.mp hx).2
      simpa using this)]
    rw [ih]

/-- C4: the dedup on `(category_url, location_used, name, quantity, price)`
keeps the first occurrence in concatenation order and discards later ones
(it equals the first-occurrence specification, is an order-preserving
sublist, and leaves no repeated key), and it is idempotent, so deduping an
already deduplicated row list changes nothing — in particular the row count
is the same after one and after two passes. -/
theorem dedup_first_occurrence_idempotent :
    ∀ l : List ProductRecord,
      dropDuplicates l = keepFirstSpec l
      ∧ dropDuplicates (dropDuplicates l) = dropDuplicates l
      ∧ (dropDuplicates (dropDuplicates l)).length = (dropDuplicates l).length
      ∧ (dropDuplicates l).Sublist l
      ∧ ((dropDuplicates l).map dedupKey).Nodup := by
  intro l
  have he := dropDuplicates_eq_keepFirstSpec l
  have hidem : dropDuplicates (dropDuplicates l) = dropDuplicates l := by
    rw [he, dropDuplicates_eq_keepFirstSpec, keepFirstSpec_idem]
  refine ⟨he, hidem, by rw [hidem], ?_, ?_⟩
  · rw [he]
    exact keepFirstSpec_sublist l
  · rw [he]
    exact keepFirstSpec_keys_nodup l

/-- One unfolding of the scroll loop in terms of the per-cycle update. -/
theorem scrollGo_succ (counts : ℕ → ℕ) (roundsStable fuel cycle lastCount stableRounds : ℕ) :
    scrollGo counts roundsStable (fuel + 1) cycle lastCount stableRounds
      = if roundsStable ≤ (scrollStep (counts cycle) lastCount stableRounds).stableRounds
        then [scrollStep (counts cycle) lastCount stableRounds]
        else scrollStep (counts cycle) lastCount stableRounds
          :: scrollGo counts roundsStable fuel (cycle + 1)
               (scrollStep (counts cycle) lastCount stableRounds).lastCount
               (scrollStep (counts cycle) lastCount stableRounds).stableRounds := rfl

/-- With positive fuel the loop runs at least one cycle. -/
theorem scrollGo_ne_nil (counts : ℕ → ℕ) (roundsStable fuel cycle lastCount stableRounds : ℕ) :
    scrollGo counts roundsStable (fuel + 1) cycle lastCount stableRounds ≠ [] := by
  rw [scrollGo_succ]
  split <;> simp

/-- The first executed cycle applies the update to the incoming state. -/
theorem scrollGo_getElem_zero (counts : ℕ → ℕ) (roundsStable fuel cycle lastCount stableRounds : ℕ) :
    (scrollGo counts roundsStable (fuel + 1) cycle lastCount stableRounds)[0]?
      = some (scrollStep (counts cycle) lastCount stableRounds) := by
  rw [scrollGo_succ]
  split <;> simp

/-- Every recorded cycle observes the count of its own (1-based) cycle index. -/
theorem scrollGo_count (counts : ℕ → ℕ) (roundsStable : ℕ) :
    ∀ (fuel cycle lastCount stableRounds i : ℕ) (a : CycleLog),
      (scrollGo counts roundsStable fuel cycle lastCount stableRounds)[i]? = some a →
      a.count = counts (cycle + i) := by
  intro fuel
  induction fuel with
  | zero => intro _ _ _ i a h; simp [scrollGo] at h
  | succ f ih =>
    intro cycle lastCount stableRounds i a h
    rw [scrollGo_succ] at h
    split at h
    · cases i with
      | zero =>
        simp only [List.getElem?_cons_zero, Option.some.injEq] at h
        rw [← h, Nat.add_zero]
        rfl
      | succ j => simp at h
    · cases i with
      | zero =>
        simp only [List.getElem?_cons_zero, Option.some.injEq] at h
        rw [← h, Nat.add_zero]
        rfl
      | succ j =>
        simp only [List.getElem?_cons_succ] at h
        rw [ih _ _ _ j a h]
        congr 1
        omega

/-- The spec's update relation holds between a state and the log produced by
applying `scrollStep` to that state's fields. -/
theorem stepRel_scrollStep (a : CycleLog) (c : ℕ) :
    (scrollStep c a.lastCount a.stableRounds).stableRounds
      = (if (scrollStep c a.lastCount a.stableRounds).count = a.lastCount
          then a.stableRounds + 1 else 0)
    ∧ (scrollStep c a.lastCount a.stableRounds).lastCount
      = (if (scrollStep c a.lastCount a.stableRounds).count = a.lastCount
          then a.lastCount else (scrollStep c a.lastCount a.stableRounds).count) := by
  by_cases h : c = a.lastCount <;> simp [scrollStep, h]

/-- Consecutive logs of the scroll trace are related by the spec's update. -/
theorem scrollGo_adjacent (counts : ℕ → ℕ) (roundsStable : ℕ) :
    ∀ (fuel cycle lastCount stableRounds i : ℕ) (a b : CycleLog),
      (scrollGo counts roundsStable fuel cycle lastCount stableRounds)[i]? = some a →
      (scrollGo counts roundsStable fuel cycle lastCount stableRounds)[i + 1]? = some b →
      b.stableRounds = (if b.count = a.lastCount then a.stableRounds + 1 else 0)
      ∧ b.lastCount = (if b.count = a.lastCount then a.lastCount else b.count) := by
  intro fuel
  induction fuel with
  | zero => intro _ _ _ i a b h _; simp [scrollGo] at h
  | succ f ih =>
    intro cycle lastCount stableRounds i a b ha hb
    rw [scrollGo_succ] at ha hb
    by_cases hc : roundsStable
        ≤ (scrollStep (counts cycle) lastCount stableRounds).stableRounds
    · rw [if_pos hc] at hb
      simp at hb
    · rw [if_neg hc] at ha hb
      cases i with
      | zero =>
        simp only [List.getElem?_cons_zero, Option.some.injEq] at ha
        simp only [List.getElem?_cons_succ] at hb
        cases f with
        | zero => simp [scrollGo] at hb
        | succ f' =>
          rw [scrollGo_getElem_zero] at hb
          have hb' := Option.some.injEq _ _ ▸ hb
          simp only [Option.some.injEq] at hb'
          rw [← ha, ← hb']
          exact stepRel_scrollStep _ _
      | succ j =>
        simp only [List.getElem?_cons_succ] at ha hb
        exact ih _ _ _ j a b ha hb

/-- Every log of the trace records the upward scroll exactly when its
post-update `stable_rounds` equals 1. -/
theorem scrollGo_upscroll (counts : ℕ → ℕ) (roundsStable : ℕ) :
    ∀ (fuel cycle lastCount stableRounds : ℕ) (a : CycleLog),
      a ∈ scrollGo counts roundsStable fuel cycle lastCount stableRounds →
      a.upscroll = (a.stableRounds == 1) := by
  intro fuel
  induction fuel with
  | zero => intro _ _ _ a h; simp [scrollGo] at h
  | succ f ih =>
    intro cycle lastCount stableRounds a h
    rw [scrollGo_succ] at h
    split at h
    · rw [List.mem_singleton] at h
      subst h
      rfl
    · rcases List.mem_cons.mp h with h1 | h2
      · subst h1
        rfl
      · exact ih _ _ _ a h2

/-- Every cycle except the final one is strictly below the stability
threshold: the loop stops as soon as the threshold is reached. -/
theorem scrollGo_mid_lt (counts : ℕ → ℕ) (roundsStable : ℕ) :
    ∀ (fuel cycle lastCount stableRounds i : ℕ) (a : CycleLog),
      (scrollGo counts roundsStable fuel cycle lastCount stableRounds)[i]? = some a →
      i + 1 < (scrollGo counts roundsStable fuel cycle lastCount stableRounds).length →
      a.stableRounds < roundsStable := by
  intro fuel
  induction fuel with
  | zero => intro _ _ _ i a h _; simp [scrollGo] at h
  | succ f ih =>
    intro cycle lastCount stableRounds i a ha hlen
    rw [scrollGo_succ] at ha hlen
    by_cases hc : roundsStable
        ≤ (scrollStep (counts cycle) lastCount stableRounds).stableRounds
    · rw [if_pos hc] at hlen
      simp at hlen
    · rw [if_neg hc] at ha hlen
      cases i with
      | zero =>
        simp only [List.getElem?_cons_zero, Option.some.injEq] at ha
        subst ha
        omega
      | succ j =>
        simp only [List.getElem?_cons_succ] at ha
        simp only [List.length_cons] at hlen
        exact ih _ _ _ j a ha (by omega)

/-- If the loop stopped before exhausting its fuel, the final log reached the
stability threshold. -/
theorem scrollGo_last_ge (counts : ℕ → ℕ) (roundsStable : ℕ) :
    ∀ (fuel cycle lastCount stableRounds : ℕ),
      (scrollGo counts roundsStable fuel cycle lastCount stableRounds).length < fuel →
      ∀ a : CycleLog,
        (scrollGo counts roundsStable fuel cycle lastCount stableRounds).getLast? = some a →
        roundsStable ≤ a.stableRounds := by
  intro fuel
  induction fuel with
  | zero => intro _ _ _ h; omega
  | succ f ih =>
    intro cycle lastCount stableRounds hlen a hlast
    rw [scrollGo_succ] at hlen hlast
    by_cases hc : roundsStable
        ≤ (scrollStep (counts cycle) lastCount stableRounds).stableRounds
    · rw [if_pos hc] at hlast
      simp only [List.getLast?_singleton, Option.some.injEq] at hlast
      subst hlast
      exact hc
    · rw [if_neg hc] at hlen hlast
      simp only [List.length_cons] at hlen
      cases hrest : scrollGo counts roundsStable f (cycle + 1)
          (scrollStep (counts cycle) lastCount stableRounds).lastCount
          (scrollStep (counts cycle) lastCount stableRounds).stableRounds with
      | nil =>
        cases f with
        | zero => rw [hrest] at hlen; simp at hlen
        | succ f' => exact absurd hrest (scrollGo_ne_nil _ _ _ _ _ _)
      | cons x xs =>
        have hlen' := Nat.lt_of_succ_lt_succ hlen
        refine ih _ _ _ hlen' a ?_
        rw [hrest, List.getLast?_cons_cons] at hlast
        rw [hrest]
        exact hlast

/-- C7: in every cycle the stabilizer follows the specified state update —
the first cycle applies it to the initial state `(last_count, stable_rounds)
= (0, 0)`; each later cycle increments `stable_rounds` when its observed
count equals the previous `last_count` and otherwise resets `stable_rounds`
to 0 and updates `last_count`; the small upward scroll fires exactly on
cycles whose post-update `stable_rounds` is 1; every non-final cycle is
below the `rounds_stable` threshold (the loop stops as soon as it is
reached); and a loop that stopped before the cycle cap did so with
`stable_rounds ≥ rounds_stable`.  Cycle `i` (0-based in the trace) observes
`counts (1 + i)`. -/
theorem scroll_state_machine :
    ∀ (counts : ℕ → ℕ) (maxScrollCycles roundsStable : ℕ),
      (1 ≤ maxScrollCycles →
        (human_like_scroll counts maxScrollCycles roundsStable)[0]?
          = some (scrollStep (counts 1) 0 0))
      ∧ (∀ (i : ℕ) (a : CycleLog),
          (human_like_scroll counts maxScrollCycles roundsStable)[i]? = some a →
          a.count = counts (1 + i))
      ∧ (∀ (i : ℕ) (a b : CycleLog),
          (human_like_scroll counts maxScrollCycles roundsStable)[i]? = some a →
          (human_like_scroll counts maxScrollCycles roundsStable)[i + 1]? = some b →
          b.stableRounds = (if b.count = a.lastCount then a.stableRounds + 1 else 0)
          ∧ b.lastCount = (if b.count = a.lastCount then a.lastCount else b.count))
      ∧ (∀ a : CycleLog,
          a ∈ human_like_scroll counts maxScrollCycles roundsStable →
          a.upscroll = (a.stableRounds == 1))
      ∧ (∀ (i : ℕ) (a : CycleLog),
          (human_like_scroll counts maxScrollCycles roundsStable)[i]? = some a →
          i + 1 < (human_like_scroll counts maxScrollCycles roundsStable).length →
          a.stableRounds < roundsStable)
      ∧ ((human_like_scroll counts maxScrollCycles roundsStable).length
            < maxScrollCycles →
          ∀ a : CycleLog,
            (human_like_scroll counts maxScrollCycles roundsStable).getLast?
              = some a →
            roundsStable ≤ a.stableRounds) := by
  intro counts maxScrollCycles roundsStable
  refine ⟨?_, ?_, ?_, ?_, ?_, ?_⟩
  · intro h
    rw [human_like_scroll]
    cases maxScrollCycles with
    | zero => omega
    | succ m => exact scrollGo_getElem_zero counts roundsStable m 1 0 0
  · intro i a h
    rw [human_like_scroll] at h
    exact scrollGo_count counts roundsStable _ _ _ _ i a h
  · intro i a b ha hb
    rw [human_like_scroll] at ha hb
    exact scrollGo_adjacent counts roundsStable _ _ _ _ i a b ha hb
  · intro a h
    rw [human_like_scroll] at h
    exact scrollGo_upscroll counts roundsStable _ _ _ _ a h
  · intro i a ha hlen
    rw [human_like_scroll] at ha hlen
    exact scrollGo_mid_lt counts roundsStable _ _ _ _ i a ha hlen
  · intro hlen a hlast
    rw [human_like_scroll] at hlen hlast
    exact scrollGo_last_ge counts roundsStable _ _ _ _ hlen a hlast

/-- Witness for C7 on the page whose card count is always 0, with
`max_scroll_cycles = 5` and `rounds_stable = 2`: the trace is two cycles,
`[⟨0,0,1,true⟩, ⟨0,0,2,false⟩]`, and the second cycle follows the update
relation from the first. -/
theorem scroll_state_machine_witness :
    (⟨0, 0, 2, false⟩ : CycleLog).stableRounds
      = (if (⟨0, 0, 2, false⟩ : CycleLog).count
            = (⟨0, 0, 1, true⟩ : CycleLog).lastCount
          then (⟨0, 0, 1, true⟩ : CycleLog).stableRounds + 1 else 0)
    ∧ (⟨0, 0, 2, false⟩ : CycleLog).lastCount
      = (if (⟨0, 0, 2, false⟩ : CycleLog).count
            = (⟨0, 0, 1, true⟩ : CycleLog).lastCount
          then (⟨0, 0, 1, true⟩ : CycleLog).lastCount
          else (⟨0, 0, 2, false⟩ : CycleLog).count) :=
  (scroll_state_machine (fun _ => 0) 5 2).2.2.1 0 ⟨0, 0, 1, true⟩ ⟨0, 0, 2, false⟩
    (by decide) (by decide)

/-- The collection fold, started from any accumulator, appends each task's
individual contribution: paths and logs are accumulated independently per
task. -/
theorem collect_foldl_eq (fs : PyPath → Bool) :
    ∀ (items : List TaskCompletion) (acc : List PyPath × List String),
      items.foldl (collectStep fs) acc
        = (acc.1 ++ items.filterMap (pathOf fs),
           acc.2 ++ items.filterMap (logOf fs)) := by
  intro items
  induction items with
  | nil => intro acc; simp
  | cons item rest ih =>
    intro acc
    rw [List.foldl_cons, ih]
    obtain ⟨⟨cat, loc⟩, res⟩ := item
    cases res with
    | ok triple =>
      obtain ⟨c, l, p⟩ := triple
      by_cases h : pathTruthy p && fs p
      · simp [collectStep, pathOf, logOf, h]
      · simp [collectStep, pathOf, logOf, h]
    | error e => simp [collectStep, pathOf, logOf]

/-- C9: the orchestrator's result-collection loop processes every completed
task: it equals the per-task contribution map (so no exception stops the
loop); every task that raised an exception contributes exactly the log line
carrying its category, location and error; and the artifacts collected
around a failing task are exactly those of the tasks before plus those of
the tasks after it. -/
theorem orchestrator_isolates_failures :
    ∀ (fs : PyPath → Bool) (items : List TaskCompletion),
      collectResults fs items
        = (items.filterMap (pathOf fs), items.filterMap (logOf fs))
      ∧ (∀ cat loc e, ((cat, loc), Except.error e) ∈ items →
          errMsg cat loc e ∈ (collectResults fs items).2)
      ∧ (∀ (pre post : List TaskCompletion) (cat loc e : String),
          items = pre ++ ((cat, loc), Except.error e) :: post →
          (collectResults fs items).1
            = (collectResults fs pre).1 ++ (collectResults fs post).1) := by
  intro fs items
  have hchar : ∀ its : List TaskCompletion,
      collectResults fs its = (its.filterMap (pathOf fs), its.filterMap (logOf fs)) := by
    intro its
    rw [collectResults, collect_foldl_eq fs its ([], [])]
    simp
  refine ⟨hchar items, ?_, ?_⟩
  · intro cat loc e hmem
    rw [hchar items]
    exact List.mem_filterMap.mpr ⟨((cat, loc), Except.error e), hmem, rfl⟩
  · intro pre post cat loc e heq
    rw [heq, hchar _, hchar pre, hchar post]
    simp [List.filterMap_append, pathOf]

/-- Witness for C9: one failing task between two succeeding ones — its error
line is logged, and both siblings' artifacts are still collected. -/
theorem orchestrator_isolates_failures_witness :
    errMsg "c2" "l2" "boom"
      ∈ (collectResults (fun _ => true)
          [(("c1", "l1"), Except.ok ("c1", "l1", PyPath.real "a1")),
           (("c2", "l2"), Except.error "boom"),
           (("c3", "l3"), Except.ok ("c3", "l3", PyPath.real "a3"))]).2 :=
  (orchestrator_isolates_failures (fun _ => true)
      [(("c1", "l1"), Except.ok ("c1", "l1", PyPath.real "a1")),
       (("c2", "l2"), Except.error "boom"),
       (("c3", "l3"), Except.ok ("c3", "l3", PyPath.real "a3"))]).2.1
    "c2" "l2" "boom" (by simp)

/-- C1 (behavior the code actually has): a task whose extraction is empty
writes no artifact file and returns the dummy path `Path()`; but `Path()` is
truthy and names the current directory, which exists on the live filesystem,
so the orchestrator's `if out_path and out_path.exists()` check accepts it:
the dummy path is appended to `parquet_files` and the no-data warning is
never logged. -/
theorem empty_task_dummy_path_collected :
    ∀ fs : PyPath → Bool, fs PyPath.dummy = true →
    ∀ cat loc outPath : String,
      scrapeOneArtifact [] outPath = (PyPath.dummy, [])
      ∧ collectResults fs [((cat, loc), Except.ok (cat, loc, PyPath.dummy))]
          = ([PyPath.dummy], []) := by
  intro fs hfs cat loc outPath
  refine ⟨rfl, ?_⟩
  rw [collectResults, List.foldl_cons, List.foldl_nil, collectStep]
  simp [pathTruthy, hfs]

/-- Witness for C1 on a concrete filesystem on which `Path()` (the process's
current directory) exists. -/
theorem empty_task_dummy_path_collected_witness :
    scrapeOneArtifact [] "out.parquet" = (PyPath.dummy, [])
    ∧ collectResults (fun _ => true)
        [(("cat", "loc"), Except.ok ("cat", "loc", PyPath.dummy))]
        = ([PyPath.dummy], []) :=
  empty_task_dummy_path_collected (fun _ => true) rfl "cat" "loc" "out.parquet"

end Scrapper
